import Mathlib

/-!
Verification of the json-commander argument-parsing core
(`json_commander::parse`, file `parse.hpp`), shallowly embedded in Lean.

The embedding mirrors the C++ source: `nlohmann::json` configuration values
become `JValue`, the config object becomes an association list with
in-place update, the per-level `NameIndex` (an `std::unordered_map`
populated via `emplace`, which keeps the first mapping for a key) becomes an
association list whose `insert` is a no-op when the key is present, and the
recursive-descent `parse_level` loop becomes a fuel-indexed recursive
function (`None` denotes fuel exhaustion; the top-level `parse` supplies
`tokens.length + 1` fuel, shown sufficient below).  Converters and
validators are the injected collaborators of the source and are modelled as
function fields.  C++ exceptions become `Except`: `parse::Error` is
`Exc.parseErr`, an `nlohmann` `type_error` escaping from `push_back` on a
non-array value is `Exc.jsonType`, and a `std::get`/`operator[]` variant or
bounds violation is `Exc.badAccess`.
-/

set_option autoImplicit false

namespace JsonCommander

/-- JSON values as stored in the runtime configuration (strings, numbers,
booleans, null and arrays thereof; objects never occur as argument values
in this core). -/
inductive JValue where
  | null
  | bool (b : Bool)
  | num (n : Int)
  | str (s : String)
  | arr (xs : List JValue)
  deriving Repr

mutual

/-- Decidable equality for `JValue` (the nested `arr` constructor defeats
the automatic derivation). -/
def JValue.decEq : (a b : JValue) → Decidable (a = b)
  | .null, .null => .isTrue rfl
  | .bool x, .bool y =>
    if h : x = y then .isTrue (h ▸ rfl)
    else .isFalse fun hh => h (JValue.bool.inj hh)
  | .num x, .num y =>
    if h : x = y then .isTrue (h ▸ rfl)
    else .isFalse fun hh => h (JValue.num.inj hh)
  | .str x, .str y =>
    if h : x = y then .isTrue (h ▸ rfl)
    else .isFalse fun hh => h (JValue.str.inj hh)
  | .arr xs, .arr ys =>
    match JValue.decEqList xs ys with
    | .isTrue h => .isTrue (h ▸ rfl)
    | .isFalse h => .isFalse fun hh => h (JValue.arr.inj hh)
  | .null, .bool _ => .isFalse fun h => JValue.noConfusion h
  | .null, .num _ => .isFalse fun h => JValue.noConfusion h
  | .null, .str _ => .isFalse fun h => JValue.noConfusion h
  | .null, .arr _ => .isFalse fun h => JValue.noConfusion h
  | .bool _, .null => .isFalse fun h => JValue.noConfusion h
  | .bool _, .num _ => .isFalse fun h => JValue.noConfusion h
  | .bool _, .str _ => .isFalse fun h => JValue.noConfusion h
  | .bool _, .arr _ => .isFalse fun h => JValue.noConfusion h
  | .num _, .null => .isFalse fun h => JValue.noConfusion h
  | .num _, .bool _ => .isFalse fun h => JValue.noConfusion h
  | .num _, .str _ => .isFalse fun h => JValue.noConfusion h
  | .num _, .arr _ => .isFalse fun h => JValue.noConfusion h
  | .str _, .null => .isFalse fun h => JValue.noConfusion h
  | .str _, .bool _ => .isFalse fun h => JValue.noConfusion h
  | .str _, .num _ => .isFalse fun h => JValue.noConfusion h
  | .str _, .arr _ => .isFalse fun h => JValue.noConfusion h
  | .arr _, .null => .isFalse fun h => JValue.noConfusion h
  | .arr _, .bool _ => .isFalse fun h => JValue.noConfusion h
  | .arr _, .num _ => .isFalse fun h => JValue.noConfusion h
  | .arr _, .str _ => .isFalse fun h => JValue.noConfusion h

/-- Decidable equality for lists of `JValue`. -/
def JValue.decEqList : (xs ys : List JValue) → Decidable (xs = ys)
  | [], [] => .isTrue rfl
  | [], _ :: _ => .isFalse fun h => List.noConfusion h
  | _ :: _, [] => .isFalse fun h => List.noConfusion h
  | x :: xs, y :: ys =>
    match JValue.decEq x y with
    | .isFalse h => .isFalse fun hh => h (List.cons.inj hh).1
    | .isTrue h1 =>
      match JValue.decEqList xs ys with
      | .isTrue h2 => .isTrue (by rw [h1, h2])
      | .isFalse h2 => .isFalse fun hh => h2 (List.cons.inj hh).2

end

instance : DecidableEq JValue := JValue.decEq

/-- The accumulating configuration object: an association list from `dest`
keys to values, mirroring the `nlohmann::json` object used by the source
(keys are unique by construction; `set` updates in place or appends). -/
def Config := List (String × JValue)
  deriving DecidableEq, Repr

/-- First value stored under key `k`. -/
def Config.find : Config → String → Option JValue
  | [], _ => none
  | (k', v) :: t, k => if k' = k then some v else Config.find t k

/-- `config.contains(k)` of the source. -/
def Config.containsKey (c : Config) (k : String) : Bool :=
  (c.find k).isSome

/-- `config[k] = v` of the source: overwrite the first binding of `k`,
or append a fresh binding. -/
def Config.set : Config → String → JValue → Config
  | [], k, v => [(k, v)]
  | (k', v') :: t, k, v =>
    if k' = k then (k', v) :: t else (k', v') :: Config.set t k v

/-- The empty `nlohmann::json::object()`. -/
def Config.empty : Config := []

-- -------------------------------------------------------------------------
-- Spec types (arg.hpp / cmd.hpp)
-- -------------------------------------------------------------------------

/-- `arg::EnvSpec` (the documentation string is not consulted by the
parsing core and is omitted). -/
structure EnvSpec where
  var : String
  deriving DecidableEq, Repr

/-- `conv::Converter`, reduced to the one member the parsing core calls:
`parse(string) -> json`, throwing `conv::Error` on failure. -/
structure Converter where
  parse : String → Except String JValue

/-- `validate::Validator`, reduced to the member the core calls:
`check(name, optional<json>)`, throwing `validate::Error` on failure. -/
structure Validator where
  check : String → Option JValue → Except String Unit

/-- `arg::FlagSpec`. -/
structure FlagSpec where
  names : List String
  dest : String
  repeated : Bool
  env : Option EnvSpec
  deprecated : Option String

/-- `arg::FlagGroupEntrySpec`. -/
structure FlagGroupEntrySpec where
  names : List String
  value : JValue

/-- `arg::FlagGroupSpec`. -/
structure FlagGroupSpec where
  dest : String
  default_value : JValue
  entries : List FlagGroupEntrySpec
  repeated : Bool

/-- `arg::OptionSpec`. -/
structure OptionSpec where
  names : List String
  dest : String
  converter : Converter
  validator : Validator
  default_value : Option JValue
  repeated : Bool
  env : Option EnvSpec

/-- `arg::PositionalSpec`. -/
structure PositionalSpec where
  name : String
  dest : String
  converter : Converter
  validator : Validator
  default_value : Option JValue
  repeated : Bool

/-- `arg::ArgSpec = std::variant<FlagSpec, FlagGroupSpec, OptionSpec,
PositionalSpec>`. -/
inductive ArgSpec where
  | flag (f : FlagSpec)
  | flagGroup (g : FlagGroupSpec)
  | option (o : OptionSpec)
  | positional (p : PositionalSpec)

/-- `cmd::CommandSpec` (the documentation string is not consulted by the
parsing core and is omitted). -/
structure CommandSpec where
  name : String
  args : List ArgSpec
  commands : List CommandSpec

/-- `cmd::RootSpec` (`config` is not consulted by the parsing core and is
omitted). -/
structure RootSpec where
  name : String
  args : List ArgSpec
  commands : List CommandSpec
  version : Option String

-- -------------------------------------------------------------------------
-- Errors and results (parse.hpp)
-- -------------------------------------------------------------------------

/-- The `parse::Error` taxonomy, one constructor per throw-site family of
the source, carrying the variable parts of the thrown message. -/
inductive ParseError where
  | unknownOption (name : String)
  | missingOptionValue (name : String)
  | misplacedShortOption (name : String)
  | conversionError (who : String) (msg : String)
  | unexpectedPositional (tok : String)
  | missingVersion
  | envConversionError (var : String) (msg : String)
  | validationError (msg : String)
  deriving DecidableEq, Repr

/-- Everything that can abort a `parse` call: a `parse::Error`, an
`nlohmann` `type_error` from `push_back` on a non-array non-null value, or
a variant/bounds access violation (never actually reached). `outOfFuel`
marks exhaustion of the fuel of the embedding; `parse` supplies enough
fuel, so it never occurs either. -/
inductive Exc where
  | parseErr (e : ParseError)
  | jsonType
  | badAccess
  | outOfFuel
  deriving DecidableEq, Repr

/-- `parse::ParseOk`. -/
structure ParseOk where
  config : Config
  commandPath : List String
  deriving DecidableEq, Repr

/-- `parse::ParseResult`. -/
inductive ParseResult where
  | ok (r : ParseOk)
  | help (commandPath : List String)
  | version
  | manpage (commandPath : List String)
  deriving DecidableEq, Repr

/-- `parse::detail::LevelOk`; `rest` is the suffix of tokens not yet
consumed (the source's `next_pos` rendered as a suffix). -/
structure LevelOk where
  config : Config
  commandPath : List String
  rest : List String
  deriving DecidableEq, Repr

/-- `parse::detail::LevelResult`. -/
inductive LevelResult where
  | ok (l : LevelOk)
  | help (commandPath : List String)
  | version
  | manpage (commandPath : List String)
  deriving DecidableEq, Repr

deriving instance DecidableEq for Except

/-- The injected environment lookup. -/
def EnvLookup := String → Option String

/-- `parse::no_env()`. -/
def noEnv : EnvLookup := fun _ => none

-- -------------------------------------------------------------------------
-- Name index (parse.hpp, detail::NameIndex / build_index)
-- -------------------------------------------------------------------------

/-- `detail::MatchKind`. -/
inductive MatchKind where
  | flag
  | option
  | flagGroup
  deriving DecidableEq, Repr

/-- `detail::MatchResult`. -/
structure MatchResult where
  argIndex : Nat
  kind : MatchKind
  entryIndex : Nat
  deriving DecidableEq, Repr

/-- `detail::NameIndex`, an `std::unordered_map` rendered as an
association list with unique keys. -/
def NameIndex := List (String × MatchResult)

/-- `NameIndex::lookup`. -/
def NameIndex.lookup : NameIndex → String → Option MatchResult
  | [], _ => none
  | (k', r) :: t, k => if k' = k then some r else NameIndex.lookup t k

/-- `NameIndex::insert`, which the source implements with
`entries_.emplace(cli_name, result)`: when the key is already present
`emplace` does nothing, so the first registration of a name wins. -/
def NameIndex.insert (idx : NameIndex) (k : String) (r : MatchResult) : NameIndex :=
  if (idx.lookup k).isSome then idx else (k, r) :: idx

/-- `detail::cli_name`. -/
def cliName (name : String) : String :=
  if name.length = 1 then "-" ++ name else "--" ++ name

/-- The sequence of `index.insert` calls that `detail::build_index`
performs for the argument at index `i`, in source order. -/
def argRegistrations (i : Nat) : ArgSpec → List (String × MatchResult)
  | .flag f => f.names.map fun n => (cliName n, ⟨i, .flag, 0⟩)
  | .option o => o.names.map fun n => (cliName n, ⟨i, .option, 0⟩)
  | .flagGroup g =>
    (g.entries.enum.map fun p => p.2.names.map fun n => (cliName n, ⟨i, .flagGroup, p.1⟩)).flatten
  | .positional _ => []

/-- All `index.insert` calls of `detail::build_index`, in source order. -/
def registrations (args : List ArgSpec) : List (String × MatchResult) :=
  (args.enum.map fun p => argRegistrations p.1 p.2).flatten

/-- `detail::build_index`. -/
def buildIndex (args : List ArgSpec) : NameIndex :=
  (registrations args).foldl (fun idx p => idx.insert p.1 p.2) []

-- -------------------------------------------------------------------------
-- Token classification (parse.hpp, detail::classify_token and friends)
-- -------------------------------------------------------------------------

/-- `detail::TokenKind`. -/
inductive TokenKind where
  | longOption
  | shortGroup
  | doubleDash
  | positional
  deriving DecidableEq, Repr

/-- `detail::classify_token`. -/
def classifyToken (token : String) : TokenKind :=
  match token.data with
  | ['-', '-'] => .doubleDash
  | '-' :: '-' :: _ :: _ => .longOption
  | '-' :: _ :: _ => .shortGroup
  | _ => .positional

/-- `detail::SplitResult`. -/
structure SplitResult where
  name : String
  value : Option String
  deriving DecidableEq, Repr

/-- `detail::split_long_option`: strip the leading `--`, split at the
first `=`. -/
def splitLongOption (token : String) : SplitResult :=
  let stripped := token.data.drop 2
  match stripped.span (fun c => c ≠ '=') with
  | (before, []) => ⟨⟨before⟩, none⟩
  | (before, _ :: after) => ⟨⟨before⟩, some ⟨after⟩⟩

-- -------------------------------------------------------------------------
-- Level parsing state (parse.hpp, detail::parse_level locals)
-- -------------------------------------------------------------------------

/-- `config[k].push_back(v)` after the source's `if (!config.contains(k))
config[k] = json::array();` guard: `nlohmann` appends to an array, turns
`null` into a one-element array, and throws `type_error` otherwise. -/
def Config.pushBack (c : Config) (k : String) (v : JValue) : Except Exc Config :=
  match c.find k with
  | none => .ok (c.set k (.arr [v]))
  | some .null => .ok (c.set k (.arr [v]))
  | some (.arr xs) => .ok (c.set k (.arr (xs ++ [v])))
  | some _ => .error .jsonType

/-- Converting and storing one option value (shared by the long-option and
short-group branches of `parse_level`): run the converter, wrap a
`conv::Error` into `parse::Error`, then append (repeated) or overwrite. -/
def storeOptionValue (o : OptionSpec) (who raw : String) (config : Config) :
    Except Exc Config :=
  match o.converter.parse raw with
  | .error e => .error (.parseErr (.conversionError who e))
  | .ok v => if o.repeated then config.pushBack o.dest v else .ok (config.set o.dest v)

/-- The positional arguments of a level in declaration order
(`positional_indices` of the source, resolved to the specs). -/
def positionals (args : List ArgSpec) : List PositionalSpec :=
  args.filterMap fun a =>
    match a with
    | .positional p => some p
    | _ => none

/-- The mutable locals of one `parse_level` invocation: the accumulating
config, the accumulated command path, the per-argument occurrence counters
(`flag_counts`), the positional cursor, and `options_terminated`. -/
structure LState where
  config : Config
  commandPath : List String
  counts : Nat → Nat
  posCursor : Nat
  terminated : Bool

/-- One "treat the token as positional" step of `parse_level`: fail
`UnexpectedPositional` when no slot remains, run the slot's converter, and
either push into the accumulating array (repeated, cursor not advanced) or
set the value and advance the cursor. -/
def positionalStep (args : List ArgSpec) (st : LState) (token : String) :
    Except Exc LState :=
  match (positionals args).get? st.posCursor with
  | none => .error (.parseErr (.unexpectedPositional token))
  | some p =>
    match p.converter.parse token with
    | .error e => .error (.parseErr (.conversionError p.name e))
    | .ok v =>
      if p.repeated then
        match st.config.pushBack p.dest v with
        | .error e => .error e
        | .ok cfg => .ok { st with config := cfg }
      else
        .ok { st with config := st.config.set p.dest v, posCursor := st.posCursor + 1 }

/-- The short-group character loop of `parse_level`: dispatch each
character through the name index; an option is only legal as the last
character and then consumes the next token (the head of `rest`) as its
value.  Returns the updated config, counters and remaining tokens. -/
def goShort (args : List ArgSpec) :
    List Char → Config → (Nat → Nat) → List String →
    Except Exc (Config × (Nat → Nat) × List String)
  | [], config, counts, rest => .ok (config, counts, rest)
  | c :: cs, config, counts, rest =>
    let sname : String := ⟨['-', c]⟩
    match (buildIndex args).lookup sname with
    | none => .error (.parseErr (.unknownOption sname))
    | some m =>
      match m.kind with
      | .flag =>
        match args.get? m.argIndex with
        | some (.flag f) =>
          let cnt := counts m.argIndex + 1
          let counts' := fun j => if j = m.argIndex then cnt else counts j
          let cfg := if f.repeated then config.set f.dest (.num cnt)
                     else config.set f.dest (.bool true)
          goShort args cs cfg counts' rest
        | _ => .error .badAccess
      | .option =>
        match args.get? m.argIndex with
        | some (.option o) =>
          match cs with
          | _ :: _ => .error (.parseErr (.misplacedShortOption sname))
          | [] =>
            match rest with
            | [] => .error (.parseErr (.missingOptionValue sname))
            | v :: rest2 =>
              match storeOptionValue o sname v config with
              | .error e => .error e
              | .ok cfg => goShort args [] cfg counts rest2
        | _ => .error .badAccess
      | .flagGroup =>
        match args.get? m.argIndex with
        | some (.flagGroup g) =>
          match g.entries.get? m.entryIndex with
          | none => .error .badAccess
          | some entry =>
            let cnt := counts m.argIndex + 1
            let counts' := fun j => if j = m.argIndex then cnt else counts j
            match (if g.repeated then config.pushBack g.dest entry.value
                   else .ok (config.set g.dest entry.value)) with
            | .error e => .error e
            | .ok cfg => goShort args cs cfg counts' rest
        | _ => .error .badAccess

/-- The fresh locals of a `parse_level` invocation. -/
def initLState : LState :=
  { config := Config.empty, commandPath := [], counts := fun _ => 0,
    posCursor := 0, terminated := false }

/-- The token loop of `detail::parse_level`, fuel-indexed (`none` means
the fuel ran out; `parse` supplies `tokens.length + 1`, which is proved
sufficient below).  `tokens` is the not-yet-consumed suffix of the shared
token list; a returned `LevelOk.rest` plays the role of the source's
`next_pos`. -/
def go : Nat → List ArgSpec → List CommandSpec → Bool → Option String →
    LState → List String → Option (Except Exc LevelResult)
  | 0, _, _, _, _, _, _ => none
  | fuel + 1, args, cmds, isRoot, version, st, tokens =>
    match tokens with
    | [] => some (.ok (.ok ⟨st.config, st.commandPath, []⟩))
    | token :: rest =>
      if st.terminated then
        match positionalStep args st token with
        | .error e => some (.error e)
        | .ok st' => go fuel args cmds isRoot version st' rest
      else if classifyToken token = .doubleDash then
        go fuel args cmds isRoot version { st with terminated := true } rest
      else if token = "--help" then
        some (.ok (.help st.commandPath))
      else if token = "--help-man" then
        some (.ok (.manpage st.commandPath))
      else if isRoot ∧ token = "--version" then
        match version with
        | none => some (.error (.parseErr .missingVersion))
        | some _ => some (.ok .version)
      else if classifyToken token = .longOption then
        let sp := splitLongOption token
        match (buildIndex args).lookup ("--" ++ sp.name) with
        | none => some (.error (.parseErr (.unknownOption ("--" ++ sp.name))))
        | some m =>
          match m.kind with
          | .flag =>
            match args.get? m.argIndex with
            | some (.flag f) =>
              let cnt := st.counts m.argIndex + 1
              let counts' := fun j => if j = m.argIndex then cnt else st.counts j
              let cfg := if f.repeated then st.config.set f.dest (.num cnt)
                         else st.config.set f.dest (.bool true)
              go fuel args cmds isRoot version
                { st with config := cfg, counts := counts' } rest
            | _ => some (.error .badAccess)
          | .option =>
            match args.get? m.argIndex with
            | some (.option o) =>
              match sp.value with
              | some v =>
                match storeOptionValue o ("--" ++ sp.name) v st.config with
                | .error e => some (.error e)
                | .ok cfg => go fuel args cmds isRoot version { st with config := cfg } rest
              | none =>
                match rest with
                | [] => some (.error (.parseErr (.missingOptionValue ("--" ++ sp.name))))
                | v :: rest2 =>
                  match storeOptionValue o ("--" ++ sp.name) v st.config with
                  | .error e => some (.error e)
                  | .ok cfg => go fuel args cmds isRoot version { st with config := cfg } rest2
            | _ => some (.error .badAccess)
          | .flagGroup =>
            match args.get? m.argIndex with
            | some (.flagGroup g) =>
              match g.entries.get? m.entryIndex with
              | none => some (.error .badAccess)
              | some entry =>
                let cnt := st.counts m.argIndex + 1
                let counts' := fun j => if j = m.argIndex then cnt else st.counts j
                match (if g.repeated then st.config.pushBack g.dest entry.value
                       else .ok (st.config.set g.dest entry.value)) with
                | .error e => some (.error e)
                | .ok cfg => go fuel args cmds isRoot version
                    { st with config := cfg, counts := counts' } rest
            | _ => some (.error .badAccess)
      else if classifyToken token = .shortGroup then
        match token.data with
        | '-' :: c :: cs =>
          match goShort args (c :: cs) st.config st.counts rest with
          | .error e => some (.error e)
          | .ok (cfg, counts', rest') =>
            go fuel args cmds isRoot version
              { st with config := cfg, counts := counts' } rest'
        | _ => some (.error .badAccess)
      else
        match cmds.find? (fun c => c.name == token) with
        | some cmdSpec =>
          let path' := st.commandPath ++ [cmdSpec.name]
          match go fuel cmdSpec.args cmdSpec.commands false none initLState rest with
          | none => none
          | some (.error e) => some (.error e)
          | some (.ok (.help p)) => some (.ok (.help (path' ++ p)))
          | some (.ok (.manpage p)) => some (.ok (.manpage (path' ++ p)))
          | some (.ok .version) => some (.ok .version)
          | some (.ok (.ok sub)) =>
            let cfg := sub.config.foldl (fun c kv => c.set kv.1 kv.2) st.config
            go fuel args cmds isRoot version
              { st with config := cfg, commandPath := path' ++ sub.commandPath } sub.rest
        | none =>
          match positionalStep args st token with
          | .error e => some (.error e)
          | .ok st' => go fuel args cmds isRoot version st' rest

/-- The behavior of the `parse_level` loop once `options_terminated`
holds: every remaining token goes through the positional branch.  (Used to
state the `--`-boundary invariant; note the absence of the subcommand
list, the root marker and the version from the signature.) -/
def posLoop : Nat → List ArgSpec → LState → List String → Option (Except Exc LevelResult)
  | 0, _, _, _ => none
  | fuel + 1, args, st, tokens =>
    match tokens with
    | [] => some (.ok (.ok ⟨st.config, st.commandPath, []⟩))
    | token :: rest =>
      match positionalStep args st token with
      | .error e => some (.error e)
      | .ok st' => posLoop fuel args st' rest

/-- `detail::parse_level`, supplied with sufficient fuel. -/
def parseLevel (args : List ArgSpec) (cmds : List CommandSpec)
    (tokens : List String) (isRoot : Bool) (version : Option String) :
    Option (Except Exc LevelResult) :=
  go (tokens.length + 1) args cmds isRoot version initLState tokens

-- -------------------------------------------------------------------------
-- Post-processing (parse.hpp, detail::apply_env / apply_defaults /
-- run_validators / post_process)
-- -------------------------------------------------------------------------

/-- The environment-fallback step of `detail::apply_env` for one Flag,
after the "already set by CLI" guard has fallen through: read the bound
variable, interpret it as a case-insensitive boolean.  The returned list
records the environment reads performed, tagged with the argument's
position (instrumentation only; the first component is the source
behavior). -/
def flagEnvFallback (env : EnvLookup) (f : FlagSpec) (config : Config) (i : Nat) :
    Except Exc (Config × List (Nat × String)) :=
  match f.env with
  | none => .ok (config, [])
  | some es =>
    match env es.var with
    | none => .ok (config, [(i, es.var)])
    | some s =>
      let lower := s.map Char.toLower
      if lower = "true" ∨ lower = "1" then
        .ok (config.set f.dest (.bool true), [(i, es.var)])
      else if lower = "false" ∨ lower = "0" then
        .ok (config.set f.dest (.bool false), [(i, es.var)])
      else
        .error (.parseErr (.envConversionError es.var s))

/-- `detail::apply_env`, Flag case: skip when the destination is present
with a value other than `false`. -/
def applyEnvFlag (env : EnvLookup) (f : FlagSpec) (config : Config) (i : Nat) :
    Except Exc (Config × List (Nat × String)) :=
  match config.find f.dest with
  | some v => if v = .bool false then flagEnvFallback env f config i else .ok (config, [])
  | none => flagEnvFallback env f config i

/-- `detail::apply_env`, Option case: skip when the destination is
present; otherwise read the bound variable and run the converter, wrapping
its failure. -/
def applyEnvOption (env : EnvLookup) (o : OptionSpec) (config : Config) (i : Nat) :
    Except Exc (Config × List (Nat × String)) :=
  match config.find o.dest with
  | some _ => .ok (config, [])
  | none =>
    match o.env with
    | none => .ok (config, [])
    | some es =>
      match env es.var with
      | none => .ok (config, [(i, es.var)])
      | some s =>
        match o.converter.parse s with
        | .error e => .error (.parseErr (.envConversionError es.var e))
        | .ok v => .ok (config.set o.dest v, [(i, es.var)])

/-- The argument loop of `detail::apply_env`; `i` is the position of the
head argument (instrumentation tag only). -/
def applyEnvGo (env : EnvLookup) :
    List ArgSpec → Config → Nat → Except Exc (Config × List (Nat × String))
  | [], config, _ => .ok (config, [])
  | a :: rest, config, i =>
    let step : Except Exc (Config × List (Nat × String)) :=
      match a with
      | .flag f => applyEnvFlag env f config i
      | .option o => applyEnvOption env o config i
      | _ => .ok (config, [])
    match step with
    | .error e => .error e
    | .ok (c1, r1) =>
      match applyEnvGo env rest c1 (i + 1) with
      | .error e => .error e
      | .ok (c2, r2) => .ok (c2, r1 ++ r2)

/-- `detail::apply_env`. -/
def applyEnv (config : Config) (args : List ArgSpec) (env : EnvLookup) :
    Except Exc (Config × List (Nat × String)) :=
  applyEnvGo env args config 0

/-- One argument of `detail::apply_defaults`. -/
def applyDefaultsArg (config : Config) : ArgSpec → Config
  | .flag f => if (config.find f.dest).isSome then config else config.set f.dest (.bool false)
  | .option o =>
    match config.find o.dest, o.default_value with
    | none, some d => config.set o.dest d
    | _, _ => config
  | .positional p =>
    match config.find p.dest, p.default_value with
    | none, some d => config.set p.dest d
    | _, _ => config
  | .flagGroup g =>
    if (config.find g.dest).isSome then config else config.set g.dest g.default_value

/-- `detail::apply_defaults`. -/
def applyDefaults (config : Config) : List ArgSpec → Config
  | [] => config
  | a :: rest => applyDefaults (applyDefaultsArg config a) rest

/-- `detail::run_validators`: only Options and Positionals carry
validators; each is invoked with the current resolved value or absence. -/
def runValidators (config : Config) : List ArgSpec → Except Exc Unit
  | [] => .ok ()
  | a :: rest =>
    let step : Except Exc Unit :=
      match a with
      | .option o =>
        match o.validator.check o.dest (config.find o.dest) with
        | .error e => .error (.parseErr (.validationError e))
        | .ok _ => .ok ()
      | .positional p =>
        match p.validator.check p.dest (config.find p.dest) with
        | .error e => .error (.parseErr (.validationError e))
        | .ok _ => .ok ()
      | _ => .ok ()
    match step with
    | .error e => .error e
    | .ok _ => runValidators config rest

/-- `detail::post_process`: environment fallback, defaulting and
validation at this level, then recurse into the level named next on the
resolved command path (the path plays the role of the source's
`command_path`/`path_index` pair). -/
def postProcess (env : EnvLookup) :
    Config → List ArgSpec → List CommandSpec → List String → Except Exc Config
  | config, args, cmds, path =>
    match applyEnv config args env with
    | .error e => .error e
    | .ok (c1, _) =>
      let c2 := applyDefaults c1 args
      match runValidators c2 args with
      | .error e => .error e
      | .ok _ =>
        match path with
        | [] => .ok c2
        | name :: restPath =>
          match cmds.find? (fun c => c.name == name) with
          | some cmdSpec => postProcess env c2 cmdSpec.args cmdSpec.commands restPath
          | none => .ok c2

/-- `parse::parse`: run the level parser at the root, pass help, version
and man-page requests through untouched, post-process an `Ok` result. -/
def parse (root : RootSpec) (tokens : List String) (env : EnvLookup) :
    Except Exc ParseResult :=
  match parseLevel root.args root.commands tokens true root.version with
  | none => .error .outOfFuel
  | some (.error e) => .error e
  | some (.ok (.help p)) => .ok (.help p)
  | some (.ok (.manpage p)) => .ok (.manpage p)
  | some (.ok .version) => .ok .version
  | some (.ok (.ok lvl)) =>
    match postProcess env lvl.config root.args root.commands lvl.commandPath with
    | .error e => .error e
    | .ok cfg => .ok (.ok ⟨cfg, lvl.commandPath⟩)

-- -------------------------------------------------------------------------
-- Basic lemmas about Config
-- -------------------------------------------------------------------------

theorem Config.find_set_self (c : Config) (k : String) (v : JValue) :
    (c.set k v).find k = some v := by
  induction c with
  | nil => simp [Config.set, Config.find]
  | cons p t ih =>
    obtain ⟨k', v'⟩ := p
    by_cases h : k' = k <;> simp [Config.set, Config.find, h, ih]

theorem Config.find_set_ne (c : Config) {k k' : String} (v : JValue) (h : k' ≠ k) :
    (c.set k' v).find k = c.find k := by
  induction c with
  | nil => simp [Config.set, Config.find, h]
  | cons p t ih =>
    obtain ⟨k'', v''⟩ := p
    by_cases h2 : k'' = k' <;> by_cases h3 : k'' = k <;>
      simp_all [Config.set, Config.find]

theorem Config.set_set (c : Config) (k : String) (v v' : JValue) :
    (c.set k v).set k v' = c.set k v' := by
  induction c with
  | nil => simp [Config.set]
  | cons p t ih =>
    obtain ⟨k'', v''⟩ := p
    by_cases h : k'' = k <;> simp [Config.set, h, ih]

-- -------------------------------------------------------------------------
-- C1: name-index collisions
-- -------------------------------------------------------------------------

/-- The collision behavior of the fold of `emplace`-style inserts that
`build_index` performs: a lookup returns the payload of the **first**
registration of the name not already present in `idx`, because
`std::unordered_map::emplace` does nothing when the key exists. -/
theorem lookup_foldl_insert (ps : List (String × MatchResult)) (idx : NameIndex) (n : String) :
    (ps.foldl (fun i p => i.insert p.1 p.2) idx).lookup n
      = ((idx.lookup n).orElse
          fun _ => (ps.find? (fun p => p.1 == n)).map Prod.snd) := by
  induction ps generalizing idx with
  | nil => cases h : idx.lookup n <;> simp [Option.orElse, h]
  | cons p ps ih =>
    obtain ⟨k, r⟩ := p
    simp only [List.foldl_cons]
    rw [ih]
    by_cases hk : (idx.lookup k).isSome
    · have hins : idx.insert k r = idx := by simp [NameIndex.insert, hk]
      rw [hins]
      by_cases hn : k = n
      · subst hn
        obtain ⟨r', hr'⟩ := Option.isSome_iff_exists.mp hk
        simp [hr', Option.orElse]
      · have hkn : (k == n) = false := beq_eq_false_iff_ne.mpr hn
        simp [List.find?, hkn, Option.orElse]
    · have hins : idx.insert k r = (k, r) :: idx := by simp [NameIndex.insert, hk]
      rw [hins]
      by_cases hn : k = n
      · subst hn
        have : idx.lookup k = none := by
          cases h : idx.lookup k
          · rfl
          · rw [h] at hk; simp at hk
        simp [NameIndex.lookup, this, Option.orElse, List.find?]
      · have hkn : (k == n) = false := beq_eq_false_iff_ne.mpr hn
        simp [NameIndex.lookup, hn, List.find?, hkn, Option.orElse]

/-- C1, counterexample: two flags both registering the CLI name `-x`.
`build_index` keeps the mapping of the **first** registration (argument
index 0), not of the last-registered declaration (argument index 1), so
"the last-registered mapping silently wins on collision" is false. -/
theorem C1_counterexample :
    (buildIndex [.flag ⟨["x"], "d1", false, none, none⟩,
                 .flag ⟨["x"], "d2", false, none, none⟩]).lookup "-x"
        = some ⟨0, .flag, 0⟩ ∧
    (buildIndex [.flag ⟨["x"], "d1", false, none, none⟩,
                 .flag ⟨["x"], "d2", false, none, none⟩]).lookup "-x"
        ≠ some ⟨1, .flag, 0⟩ := by
  constructor <;> decide

/-- C1, amended: when several declarations register the same CLI-formatted
name, the **first**-registered mapping silently wins: a lookup in the index
built by `build_index` returns the payload of the first registration of
that name (registrations taken in the source's loop order). -/
theorem C1_first_registration_wins (args : List ArgSpec) (n : String) :
    (buildIndex args).lookup n
      = ((registrations args).find? (fun p => p.1 == n)).map Prod.snd := by
  have h := lookup_foldl_insert (registrations args) [] n
  simpa [buildIndex, NameIndex.lookup, Option.orElse] using h

-- -------------------------------------------------------------------------
-- C4: the -- boundary
-- -------------------------------------------------------------------------

theorem positionalStep_terminated {args : List ArgSpec} {st st' : LState} {token : String}
    (h : positionalStep args st token = .ok st') : st'.terminated = st.terminated := by
  unfold positionalStep at h
  split at h
  · cases h
  · split at h
    · cases h
    · split at h
      · split at h
        · cases h
        · cases h; rfl
      · cases h; rfl

/-- C4: consuming a literal `--` at a level sets `options_terminated`
(first conjunct), and from then on the loop of `parse_level` is exactly
the positional-consumption loop `posLoop` (second conjunct): every
subsequent token of the level is handled by the positional branch, and the
result no longer depends on the subcommand list, the root marker, the
version, the reserved tokens or the name index, none of which `posLoop`
receives. -/
theorem C4_double_dash_terminates (fuel : Nat) (args : List ArgSpec)
    (cmds : List CommandSpec) (isRoot : Bool) (version : Option String)
    (st : LState) (rest tokens : List String) :
    (st.terminated = false →
      go (fuel + 1) args cmds isRoot version st ("--" :: rest)
        = go fuel args cmds isRoot version { st with terminated := true } rest) ∧
    (st.terminated = true →
      go fuel args cmds isRoot version st tokens = posLoop fuel args st tokens) := by
  constructor
  · intro h
    have hc : classifyToken "--" = .doubleDash := by decide
    simp [go, h, hc]
  · intro h
    induction fuel generalizing st tokens with
    | zero => simp [go, posLoop]
    | succ f ih =>
      cases tokens with
      | nil => simp [go, posLoop]
      | cons token rest' =>
        simp only [go, posLoop, h, if_true]
        cases hps : positionalStep args st token with
        | error e => rfl
        | ok st' =>
          exact ih st' rest' ((positionalStep_terminated hps).trans h)

/-- C4, witness: the two conjuncts applied at concrete inputs. -/
theorem C4_witness :
    go 2 [] [] true none initLState ["--"]
      = go 1 [] [] true none { initLState with terminated := true } [] ∧
    go 1 [] [] true none { initLState with terminated := true } ["x"]
      = posLoop 1 [] { initLState with terminated := true } ["x"] :=
  ⟨(C4_double_dash_terminates 1 [] [] true none initLState [] []).1 rfl,
   (C4_double_dash_terminates 1 [] [] true none
      { initLState with terminated := true } [] ["x"]).2 rfl⟩

-- -------------------------------------------------------------------------
-- C7: reserved tokens
-- -------------------------------------------------------------------------

/-- C7, counterexample: a spec declaring a flag literally named `help` is
**not** unreachable.  The reserved-token check compares the whole token
against `"--help"`, so the inline-value form `--help=x` slips past it,
resolves through the name index, and sets the declared flag: the token
list `["--help=x"]` causes the declared argument to be set, refuting "no
token list causes that declared argument to receive a value or be set". -/
theorem C7_counterexample :
    parse ⟨"prog", [.flag ⟨["help"], "help", false, none, none⟩], [], none⟩
        ["--help=x"] noEnv
      = .ok (.ok ⟨[("help", .bool true)], []⟩) := by
  decide

/-- C7, amended: the reserved tokens win only on exact match.  Before a
literal `--`, a token exactly equal to `--help` always yields
`HelpRequest` and a token exactly equal to `--help-man` always yields
`ManpageRequest` — whatever arguments are declared, so a declared argument
named `help` can never be selected by the exact token `--help`; at the
root, an exact `--version` with a declared version yields
`VersionRequest`.  (A declared argument named `help` remains reachable
through the inline form `--help=value`, per the counterexample.) -/
theorem go_help_head (fuel : Nat) (args : List ArgSpec) (cmds : List CommandSpec)
    (isRoot : Bool) (version : Option String) (st : LState) (tokens : List String)
    (h : st.terminated = false) :
    go (fuel + 1) args cmds isRoot version st ("--help" :: tokens)
      = some (.ok (.help st.commandPath)) := by
  have h1 : classifyToken "--help" = .longOption := by decide
  simp [go, h, h1]

theorem go_manpage_head (fuel : Nat) (args : List ArgSpec) (cmds : List CommandSpec)
    (isRoot : Bool) (version : Option String) (st : LState) (tokens : List String)
    (h : st.terminated = false) :
    go (fuel + 1) args cmds isRoot version st ("--help-man" :: tokens)
      = some (.ok (.manpage st.commandPath)) := by
  have h2 : classifyToken "--help-man" = .longOption := by decide
  simp [go, h, h2]

theorem go_version_head (fuel : Nat) (args : List ArgSpec) (cmds : List CommandSpec)
    (st : LState) (tokens : List String) (ver : String)
    (h : st.terminated = false) :
    go (fuel + 1) args cmds true (some ver) st ("--version" :: tokens)
      = some (.ok .version) := by
  have h3 : classifyToken "--version" = .longOption := by decide
  simp [go, h, h3]

theorem C7_reserved_exact_match (fuel : Nat) (args : List ArgSpec)
    (cmds : List CommandSpec) (isRoot : Bool) (version : Option String)
    (st : LState) (tokens : List String) (h : st.terminated = false) :
    go (fuel + 1) args cmds isRoot version st ("--help" :: tokens)
      = some (.ok (.help st.commandPath)) ∧
    go (fuel + 1) args cmds isRoot version st ("--help-man" :: tokens)
      = some (.ok (.manpage st.commandPath)) ∧
    (isRoot = true → ∀ ver, version = some ver →
      go (fuel + 1) args cmds isRoot version st ("--version" :: tokens)
        = some (.ok .version)) := by
  refine ⟨go_help_head fuel args cmds isRoot version st tokens h,
          go_manpage_head fuel args cmds isRoot version st tokens h, ?_⟩
  intro hr ver hv
  subst hr hv
  exact go_version_head fuel args cmds st tokens ver h

/-- C7, witness: the amended theorem applied at a concrete input — with a
flag named `help` declared, the exact token `--help` still returns
`HelpRequest`. -/
theorem C7_witness :
    go 1 [.flag ⟨["help"], "help", false, none, none⟩] [] true none
        initLState ["--help"]
      = some (.ok (.help [])) :=
  (C7_reserved_exact_match 0 [.flag ⟨["help"], "help", false, none, none⟩]
    [] true none initLState [] rfl).1

-- -------------------------------------------------------------------------
-- C10: termination of parse_level
-- -------------------------------------------------------------------------

theorem goShort_rest_le (args : List ArgSpec) :
    ∀ (cs : List Char) (cfg : Config) (counts : Nat → Nat) (rest : List String)
      (cfg' : Config) (counts' : Nat → Nat) (rest' : List String),
      goShort args cs cfg counts rest = .ok (cfg', counts', rest') →
      rest'.length ≤ rest.length := by
  intro cs
  induction cs with
  | nil =>
    intro cfg counts rest cfg' counts' rest' h
    simp only [goShort] at h
    injection h with h
    injection h with h1 h
    injection h with h2 h3
    subst h3
    exact Nat.le_refl _
  | cons c cs ih =>
    intro cfg counts rest cfg' counts' rest' h
    simp only [goShort] at h
    repeat' split at h
    all_goals try (cases h)
    all_goals try (exact ih _ _ _ _ _ _ h)
    all_goals exact Nat.le_succ _

theorem go_rest_le :
    ∀ (fuel : Nat) (args : List ArgSpec) (cmds : List CommandSpec)
      (isRoot : Bool) (version : Option String) (st : LState)
      (tokens : List String) (lvl : LevelOk),
      go fuel args cmds isRoot version st tokens = some (.ok (.ok lvl)) →
      lvl.rest.length ≤ tokens.length := by
  intro fuel
  induction fuel with
  | zero =>
    intro args cmds isRoot version st tokens lvl h
    simp [go] at h
  | succ f ih =>
    intro args cmds isRoot version st tokens lvl h
    cases tokens with
    | nil =>
      simp only [go] at h
      injection h with h
      injection h with h
      injection h with h
      subst h
      exact Nat.le_refl _
    | cons token rest =>
      simp only [go] at h
      repeat' split at h
      all_goals try (cases h)
      all_goals try (exact Nat.le_succ_of_le (ih _ _ _ _ _ _ _ h))
      all_goals try (exact Nat.le_succ_of_le (Nat.le_succ_of_le (ih _ _ _ _ _ _ _ h)))
      all_goals
        (rename_i heq
         first
         | exact Nat.le_succ_of_le
             (Nat.le_trans (ih _ _ _ _ _ _ _ h) (goShort_rest_le _ _ _ _ _ _ _ _ heq))
         | exact Nat.le_succ_of_le
             (Nat.le_trans (ih _ _ _ _ _ _ _ h) (ih _ _ _ _ _ _ _ heq)))

theorem go_ne_none :
    ∀ (fuel : Nat) (args : List ArgSpec) (cmds : List CommandSpec)
      (isRoot : Bool) (version : Option String) (st : LState)
      (tokens : List String),
      tokens.length < fuel →
      go fuel args cmds isRoot version st tokens ≠ none := by
  intro fuel
  induction fuel with
  | zero =>
    intro args cmds isRoot version st tokens hlen
    exact absurd hlen (Nat.not_lt_zero _)
  | succ f ih =>
    intro args cmds isRoot version st tokens hlen
    cases tokens with
    | nil => simp [go]
    | cons token rest =>
      simp only [List.length_cons, Nat.succ_lt_succ_iff] at hlen
      simp only [go]
      repeat' split
      all_goals try (exact Option.some_ne_none _)
      all_goals try (exact ih _ _ _ _ _ _ (by (try simp only [List.length_cons] at hlen); omega))
      all_goals
        (rename_i heq
         first
         | exact absurd heq (ih _ _ _ _ _ _ (by omega))
         | exact ih _ _ _ _ _ _
             (Nat.lt_of_le_of_lt (goShort_rest_le _ _ _ _ _ _ _ _ heq) hlen)
         | exact ih _ _ _ _ _ _
             (Nat.lt_of_le_of_lt (go_rest_le _ _ _ _ _ _ _ _ heq) hlen))

/-- C10: `parse_level` terminates on every input.  The token loop is
fuel-indexed in the embedding; `tokens.length + 1` fuel — one unit per
loop iteration, each of which consumes at least one token (a child level's
`next_pos` is at least the subcommand token's position plus one, i.e. the
returned rest-suffix never grows: `go_rest_le`) — always suffices, so
`parse_level` never exhausts its fuel and returns a result for every
argument list, command tree, token list and state. -/
theorem C10_parse_level_terminates (args : List ArgSpec) (cmds : List CommandSpec)
    (tokens : List String) (isRoot : Bool) (version : Option String) :
    (parseLevel args cmds tokens isRoot version).isSome := by
  rw [Option.isSome_iff_ne_none]
  exact go_ne_none _ _ _ _ _ _ _ (Nat.lt_succ_self _)

-- -------------------------------------------------------------------------
-- C5 / C6: short-circuit requests and subcommand recursion
-- -------------------------------------------------------------------------

theorem not_reserved_of_positional {t : String} (h : classifyToken t = .positional) :
    t ≠ "--help" ∧ t ≠ "--help-man" ∧ t ≠ "--version" ∧ t ≠ "--" := by
  refine ⟨?_, ?_, ?_, ?_⟩ <;> rintro rfl <;> revert h <;> decide

/-- One loop iteration of `parse_level` on a token that names a
subcommand: recurse into the child level from the next position and either
propagate a short-circuit request (prepending this level's accumulated
command segments) or merge the child's config and continue at the child's
`next_pos`. -/
theorem go_subcommand_step (fuel : Nat) (args : List ArgSpec)
    (cmds : List CommandSpec) (isRoot : Bool) (version : Option String)
    (st : LState) (token : String) (rest : List String) (cmdSpec : CommandSpec)
    (hterm : st.terminated = false)
    (hcl : classifyToken token = .positional)
    (hfind : cmds.find? (fun c => c.name == token) = some cmdSpec) :
    go (fuel + 1) args cmds isRoot version st (token :: rest)
      = match go fuel cmdSpec.args cmdSpec.commands false none initLState rest with
        | none => none
        | some (.error e) => some (.error e)
        | some (.ok (.help p)) =>
          some (.ok (.help (st.commandPath ++ [cmdSpec.name] ++ p)))
        | some (.ok (.manpage p)) =>
          some (.ok (.manpage (st.commandPath ++ [cmdSpec.name] ++ p)))
        | some (.ok .version) => some (.ok .version)
        | some (.ok (.ok sub)) =>
          go fuel args cmds isRoot version
            { st with
                config := sub.config.foldl (fun c kv => c.set kv.1 kv.2) st.config,
                commandPath := st.commandPath ++ [cmdSpec.name] ++ sub.commandPath }
            sub.rest := by
  obtain ⟨h1, h2, h3, _⟩ := not_reserved_of_positional hcl
  simp [go, hterm, hcl, h1, h2, h3, hfind]

/-- C6: help (and man-page) requests from a child level short-circuit to
the top with the parent's command segment prepended at each level: for a
root whose command list resolves `na` to subcommand `A` and whose `A`
resolves `nb` to child `B` (both names being ordinary positional-shaped
tokens), parsing `[na, nb, "--help"]` yields `HelpRequest` with
`command_path = [na, nb]`. -/
theorem C6_subcommand_help_path (root : RootSpec) (na nb : String)
    (A B : CommandSpec) (env : EnvLookup)
    (hA : root.commands.find? (fun c => c.name == na) = some A)
    (hB : A.commands.find? (fun c => c.name == nb) = some B)
    (hna : classifyToken na = .positional)
    (hnb : classifyToken nb = .positional) :
    parse root [na, nb, "--help"] env = .ok (.help [na, nb]) := by
  have hAname : A.name = na := by
    have := List.find?_some hA
    simpa [beq_iff_eq] using this
  have hBname : B.name = nb := by
    have := List.find?_some hB
    simpa [beq_iff_eq] using this
  have key : ∀ f : Nat,
      go (f + 1 + 1 + 1) root.args root.commands true root.version initLState
          [na, nb, "--help"]
        = some (.ok (.help [na, nb])) := by
    intro f
    rw [go_subcommand_step (f + 1 + 1) root.args root.commands true root.version
          initLState na [nb, "--help"] A rfl hna hA]
    rw [go_subcommand_step (f + 1) A.args A.commands false none
          initLState nb ["--help"] B rfl hnb hB]
    rw [go_help_head f B.args B.commands false none initLState [] rfl]
    simp [initLState, hAname, hBname]
  have hlvl : parseLevel root.args root.commands [na, nb, "--help"] true root.version
      = some (.ok (.help [na, nb])) := by
    have h4 : ([na, nb, "--help"] : List String).length + 1 = 1 + 1 + 1 + 1 := rfl
    rw [parseLevel, h4]
    exact key 1
  simp [parse, hlvl]

/-- C6, witness: the theorem applied to a concrete two-level command
tree. -/
theorem C6_witness :
    parse ⟨"prog", [], [⟨"a", [], [⟨"b", [], []⟩]⟩], none⟩ ["a", "b", "--help"] noEnv
      = .ok (.help ["a", "b"]) :=
  C6_subcommand_help_path ⟨"prog", [], [⟨"a", [], [⟨"b", [], []⟩]⟩], none⟩
    "a" "b" ⟨"a", [], [⟨"b", [], []⟩]⟩ ⟨"b", [], []⟩ noEnv
    rfl rfl (by decide) (by decide)

/-- C5, counterexample: the claim quantifies over **all** token lists
containing `--help` before any `--`, but a parse error raised while
scanning an earlier token still aborts the parse before `--help` is
reached: with no declared arguments, `["--zzz", "--help"]` contains
`--help` before any `--` (there is no `--` at all), yet `parse` fails with
UnknownOption instead of succeeding with `HelpRequest`. -/
theorem C5_counterexample :
    parse ⟨"prog", [], [], none⟩ ["--zzz", "--help"] noEnv
        = .error (.parseErr (.unknownOption "--zzz")) ∧
    ("--" ∉ (["--zzz", "--help"] : List String)) := by
  constructor <;> decide

/-- C5, amended: Help/Version/Manpage level results are successful
outcomes returned immediately and untouched — the post-processor
(environment fallback, defaulting, validation) is never consulted, as the
result does not depend on the environment at all — and a `--help` that is
**reached** (in particular, a leading `--help`) succeeds no matter what
required options or positionals are missing; but an error raised by a
token processed before `--help` still aborts the parse. -/
theorem C5_help_bypasses_postprocessing (root : RootSpec) (tokens : List String)
    (env : EnvLookup) :
    (∀ p, parseLevel root.args root.commands tokens true root.version
        = some (.ok (.help p)) → parse root tokens env = .ok (.help p)) ∧
    (∀ p, parseLevel root.args root.commands tokens true root.version
        = some (.ok (.manpage p)) → parse root tokens env = .ok (.manpage p)) ∧
    (parseLevel root.args root.commands tokens true root.version
        = some (.ok .version) → parse root tokens env = .ok .version) ∧
    (∀ rest, tokens = "--help" :: rest → parse root tokens env = .ok (.help [])) := by
  refine ⟨?_, ?_, ?_, ?_⟩
  · intro p h; simp [parse, h]
  · intro p h; simp [parse, h]
  · intro h; simp [parse, h]
  · rintro rest rfl
    have hlvl : parseLevel root.args root.commands ("--help" :: rest) true root.version
        = some (.ok (.help [])) := by
      rw [parseLevel, List.length_cons]
      exact go_help_head rest.length root.args root.commands true root.version
        initLState rest rfl
    simp [parse, hlvl]

/-- C5, witness: a spec whose only argument is a required positional (its
validator rejects absence), so the empty token list fails validation, yet
`["--help"]` succeeds because the post-processor never runs. -/
theorem C5_witness :
    parse ⟨"prog",
        [.positional ⟨"file", "file", ⟨fun s => .ok (.str s)⟩,
            ⟨fun n v => match v with
                        | none => .error (n ++ " is required")
                        | some _ => .ok ()⟩, none, false⟩],
        [], none⟩ ["--help"] noEnv
      = .ok (.help []) :=
  (C5_help_bypasses_postprocessing _ _ noEnv).2.2.2 [] rfl

-- -------------------------------------------------------------------------
-- C8: repeated-flag counting
-- -------------------------------------------------------------------------

theorem C8_loop (rep : Bool) :
    ∀ (k fuel : Nat), k < fuel → ∀ (st : LState), st.terminated = false →
      go fuel [.flag ⟨["verbose"], "verbose", rep, none, none⟩] [] true none st
          (List.replicate k "--verbose")
        = some (.ok (.ok ⟨(if k = 0 then st.config
              else st.config.set "verbose"
                (if rep then .num (st.counts 0 + k) else .bool true)),
            st.commandPath, []⟩)) := by
  intro k
  induction k with
  | zero =>
    intro fuel hf st hterm
    cases fuel with
    | zero => exact absurd hf (by omega)
    | succ f => simp [go, List.replicate]
  | succ k ih =>
    intro fuel hf st hterm
    cases fuel with
    | zero => exact absurd hf (by omega)
    | succ f =>
      have hk : k < f := by omega
      have hcl : classifyToken "--verbose" = .longOption := by decide
      have hsplit : splitLongOption "--verbose" = ⟨"verbose", none⟩ := by decide
      have hlook : (buildIndex
            [.flag ⟨["verbose"], "verbose", rep, none, none⟩]).lookup "--verbose"
          = some ⟨0, .flag, 0⟩ := rfl
      have happ : "--" ++ "verbose" = "--verbose" := rfl
      rw [List.replicate_succ]
      simp [go, hterm, hcl, hsplit, happ, hlook]
      rw [ih f hk _ rfl]
      by_cases hk0 : k = 0
      · subst hk0
        by_cases hrep : rep = true <;> simp [hrep]
      · by_cases hrep : rep = true <;>
          simp [hrep, hk0, Config.set_set] <;> push_cast <;> ring_nf

/-- C8: a flag declared with `repeated = true` mentioned `n ≥ 1` times
stores the occurrence count `n` under its `dest`; with `repeated` false,
any positive number of mentions stores the boolean `true`, irrespective of
the count. -/
theorem C8_repeated_flag_counting (n : Nat) (hn : 1 ≤ n) (rep : Bool) (env : EnvLookup) :
    parse ⟨"prog", [.flag ⟨["verbose"], "verbose", rep, none, none⟩], [], none⟩
        (List.replicate n "--verbose") env
      = .ok (.ok ⟨[("verbose", if rep then .num n else .bool true)], []⟩) := by
  have hlen : (List.replicate n "--verbose").length = n := List.length_replicate _ _
  have key := C8_loop rep n (n + 1) (by omega) initLState rfl
  have hn0 : ¬(n = 0) := by omega
  have hlvl : parseLevel [.flag ⟨["verbose"], "verbose", rep, none, none⟩] []
      (List.replicate n "--verbose") true none
      = some (.ok (.ok ⟨[("verbose", if rep then .num n else .bool true)], [], []⟩)) := by
    rw [parseLevel, hlen, key]
    simp [initLState, hn0, Config.set, Config.empty]
  have hne : (if rep then JValue.num n else JValue.bool true) ≠ .bool false := by
    by_cases hrep : rep = true <;> simp [hrep]
  simp only [parse, hlvl]
  by_cases hrep : rep = true <;>
    simp [hrep, postProcess, applyEnv, applyEnvGo, applyEnvFlag, applyDefaults,
      applyDefaultsArg, runValidators, Config.find]

/-- C8, witness: two mentions of a repeated flag yield the count 2; two
mentions of a non-repeated flag yield `true`. -/
theorem C8_witness :
    parse ⟨"prog", [.flag ⟨["verbose"], "verbose", true, none, none⟩], [], none⟩
        ["--verbose", "--verbose"] noEnv
      = .ok (.ok ⟨[("verbose", .num 2)], []⟩) ∧
    parse ⟨"prog", [.flag ⟨["verbose"], "verbose", false, none, none⟩], [], none⟩
        ["--verbose", "--verbose"] noEnv
      = .ok (.ok ⟨[("verbose", .bool true)], []⟩) :=
  ⟨C8_repeated_flag_counting 2 (by decide) true noEnv,
   C8_repeated_flag_counting 2 (by decide) false noEnv⟩

-- -------------------------------------------------------------------------
-- C9: inline =value on a flag token
-- -------------------------------------------------------------------------

theorem span_no_split {p : Char → Bool} :
    ∀ (xs : List Char) (y : Char) (ys : List Char),
      (∀ x ∈ xs, p x = true) → p y = false →
      (xs ++ y :: ys).takeWhile p = xs ∧ (xs ++ y :: ys).dropWhile p = y :: ys := by
  intro xs
  induction xs with
  | nil =>
    intro y ys _ hy
    simp [List.takeWhile_cons, List.dropWhile_cons, hy]
  | cons x xs ih =>
    intro y ys hxs hy
    have hpx : p x = true := hxs x (List.mem_cons_self _ _)
    have hrec := ih y ys (fun z hz => hxs z (List.mem_cons_of_mem _ hz)) hy
    simp [List.takeWhile_cons, List.dropWhile_cons, hpx, hrec]

theorem span_all {p : Char → Bool} :
    ∀ (xs : List Char), (∀ x ∈ xs, p x = true) →
      xs.takeWhile p = xs ∧ xs.dropWhile p = [] := by
  intro xs
  induction xs with
  | nil => intro _; simp
  | cons x xs ih =>
    intro hxs
    have hpx : p x = true := hxs x (List.mem_cons_self _ _)
    have hrec := ih (fun z hz => hxs z (List.mem_cons_of_mem _ hz))
    simp [List.takeWhile_cons, List.dropWhile_cons, hpx, hrec]

theorem data_dd_inline (name v : String) :
    ("--" ++ name ++ "=" ++ v).data = '-' :: '-' :: (name.data ++ '=' :: v.data) := by
  simp [String.data_append]

theorem data_dd (name : String) :
    ("--" ++ name).data = '-' :: '-' :: name.data := by
  simp [String.data_append]

theorem splitLongOption_inline (name v : String) (hne : '=' ∉ name.data) :
    splitLongOption ("--" ++ name ++ "=" ++ v) = ⟨name, some v⟩ := by
  unfold splitLongOption
  rw [data_dd_inline]
  simp only [List.drop_succ_cons, List.drop_zero]
  rw [List.span_eq_take_drop]
  have hspan := span_no_split (p := fun c => c ≠ '=') name.data '=' v.data
    (fun x hx => by simp; rintro rfl; exact hne hx) (by simp)
  rw [hspan.1, hspan.2]

theorem splitLongOption_plain (name : String) (hne : '=' ∉ name.data) :
    splitLongOption ("--" ++ name) = ⟨name, none⟩ := by
  unfold splitLongOption
  rw [data_dd]
  simp only [List.drop_succ_cons, List.drop_zero]
  rw [List.span_eq_take_drop]
  have hspan := span_all (p := fun c => c ≠ '=') name.data
    (fun x hx => by simp; rintro rfl; exact hne hx)
  rw [hspan.1, hspan.2]

theorem classify_dd_inline (name v : String) (hne : name ≠ "") :
    classifyToken ("--" ++ name ++ "=" ++ v) = .longOption := by
  unfold classifyToken
  rw [data_dd_inline]
  cases hnd : name.data with
  | nil => exact absurd (String.ext hnd) hne
  | cons c cs => simp

theorem classify_dd_plain (name : String) (hne : name ≠ "") :
    classifyToken ("--" ++ name) = .longOption := by
  unfold classifyToken
  rw [data_dd]
  cases hnd : name.data with
  | nil => exact absurd (String.ext hnd) hne
  | cons c cs => simp

theorem inline_ne (name v s : String) (hs : '=' ∉ s.data) :
    "--" ++ name ++ "=" ++ v ≠ s := by
  intro he
  have hmem : '=' ∈ s.data := by
    rw [← he, data_dd_inline]
    simp
  exact hs hmem

theorem dd_append_inj {a b : String} (h : "--" ++ a = "--" ++ b) : a = b := by
  apply String.ext
  have hd := congrArg String.data h
  simpa [String.data_append] using hd

/-- C9: a long-option token carrying an inline `=value` whose name
resolves to a Flag or FlagGroup raises no error: the parse continues on a
state identical to the one produced by the same token without the
`=value` part — the inline value is silently discarded.  (The name must
not itself be a reserved token, where the two spellings genuinely differ:
`--help` returns a help request while `--help=x` reaches the name
index.) -/
theorem C9_inline_value_on_flag_discarded
    (name v : String) (rest : List String) (args : List ArgSpec)
    (cmds : List CommandSpec) (isRoot : Bool) (version : Option String)
    (st : LState) (fuel : Nat) (m : MatchResult)
    (hterm : st.terminated = false)
    (hname : name ≠ "")
    (heqn : '=' ∉ name.data)
    (h1 : name ≠ "help") (h2 : name ≠ "help-man")
    (h3 : isRoot = true → name ≠ "version")
    (hm : (buildIndex args).lookup ("--" ++ name) = some m)
    (hkind : m.kind ≠ .option) :
    go (fuel + 1) args cmds isRoot version st (("--" ++ name ++ "=" ++ v) :: rest)
      = go (fuel + 1) args cmds isRoot version st (("--" ++ name) :: rest) := by
  have hcl1 := classify_dd_inline name v hname
  have hcl2 := classify_dd_plain name hname
  have hsp1 := splitLongOption_inline name v heqn
  have hsp2 := splitLongOption_plain name heqn
  have hne1 := inline_ne name v "--help" (by decide)
  have hne2 := inline_ne name v "--help-man" (by decide)
  have hne3 := inline_ne name v "--version" (by decide)
  have hpl1 : "--" ++ name ≠ "--help" := fun he =>
    h1 (dd_append_inj (a := name) (b := "help") he)
  have hpl2 : "--" ++ name ≠ "--help-man" := fun he =>
    h2 (dd_append_inj (a := name) (b := "help-man") he)
  have hver : (isRoot = true ∧ ("--" ++ name ++ "=" ++ v) = "--version") = False := by
    simp [hne3]
  have hverp : ¬(isRoot = true ∧ ("--" ++ name) = "--version") := by
    rintro ⟨hr, he⟩
    exact h3 hr (dd_append_inj (a := name) (b := "version") he)
  simp only [go, hterm, hcl1, hcl2, hsp1, hsp2, hm, hne1, hne2, hverp,
    Bool.false_eq_true, if_false, hpl1, hpl2, hver]
  cases hmk : m.kind with
  | flag => simp
  | option => exact absurd hmk hkind
  | flagGroup => simp

/-- C9, witness: with a flag named `verbose` declared, the token
`--verbose=xyz` behaves exactly like `--verbose`. -/
theorem C9_witness :
    go 1 [.flag ⟨["verbose"], "verbose", false, none, none⟩] [] true none
        initLState ["--verbose=xyz"]
      = go 1 [.flag ⟨["verbose"], "verbose", false, none, none⟩] [] true none
        initLState ["--verbose"] := by
  have h := C9_inline_value_on_flag_discarded "verbose" "xyz" []
    [.flag ⟨["verbose"], "verbose", false, none, none⟩] [] true none
    initLState 0 ⟨0, .flag, 0⟩ rfl (by decide) (by decide) (by decide)
    (by decide) (fun _ => by decide) rfl (by decide)
  exact h

-- -------------------------------------------------------------------------
-- C3: short-group equivalence
-- -------------------------------------------------------------------------

set_option maxHeartbeats 2000000 in
/-- C3: for single-character flags `a`, `b` and a single-character option
`c` requiring a value (arbitrary converter, validator and default),
parsing `["-abc", value]` yields the same `ParseResult` as parsing
`["-a", "-b", "-c", value]`; and a short group in which the option
character is not last (`"-cab"`) fails with MisplacedShortOption whatever
tokens follow. -/
theorem C3_short_group_equivalence
    (conv : String → Except String JValue)
    (val : String → Option JValue → Except String Unit)
    (dflt : Option JValue) (v : String) (rest : List String) (env : EnvLookup) :
    (parse ⟨"prog",
        [.flag ⟨["a"], "a", false, none, none⟩,
         .flag ⟨["b"], "b", false, none, none⟩,
         .option ⟨["c"], "c", ⟨conv⟩, ⟨val⟩, dflt, false, none⟩], [], none⟩
        ["-abc", v] env
      = parse ⟨"prog",
        [.flag ⟨["a"], "a", false, none, none⟩,
         .flag ⟨["b"], "b", false, none, none⟩,
         .option ⟨["c"], "c", ⟨conv⟩, ⟨val⟩, dflt, false, none⟩], [], none⟩
        ["-a", "-b", "-c", v] env) ∧
    (parse ⟨"prog",
        [.flag ⟨["a"], "a", false, none, none⟩,
         .flag ⟨["b"], "b", false, none, none⟩,
         .option ⟨["c"], "c", ⟨conv⟩, ⟨val⟩, dflt, false, none⟩], [], none⟩
        ("-cab" :: rest) env
      = .error (.parseErr (.misplacedShortOption "-c"))) := by
  have hd1 : "-abc".data = ['-', 'a', 'b', 'c'] := rfl
  have hd2 : "-a".data = ['-', 'a'] := rfl
  have hd3 : "-b".data = ['-', 'b'] := rfl
  have hd4 : "-c".data = ['-', 'c'] := rfl
  have hd5 : "-cab".data = ['-', 'c', 'a', 'b'] := rfl
  have hm1 : (⟨['-', 'a']⟩ : String) = "-a" := rfl
  have hm2 : (⟨['-', 'b']⟩ : String) = "-b" := rfl
  have hm3 : (⟨['-', 'c']⟩ : String) = "-c" := rfl
  have hcl1 : classifyToken "-abc" = .shortGroup := rfl
  have hcl2 : classifyToken "-a" = .shortGroup := rfl
  have hcl3 : classifyToken "-b" = .shortGroup := rfl
  have hcl4 : classifyToken "-c" = .shortGroup := rfl
  have hcl5 : classifyToken "-cab" = .shortGroup := rfl
  have hla : (buildIndex
      [.flag ⟨["a"], "a", false, none, none⟩,
       .flag ⟨["b"], "b", false, none, none⟩,
       .option ⟨["c"], "c", ⟨conv⟩, ⟨val⟩, dflt, false, none⟩]).lookup "-a"
      = some ⟨0, .flag, 0⟩ := rfl
  have hlb : (buildIndex
      [.flag ⟨["a"], "a", false, none, none⟩,
       .flag ⟨["b"], "b", false, none, none⟩,
       .option ⟨["c"], "c", ⟨conv⟩, ⟨val⟩, dflt, false, none⟩]).lookup "-b"
      = some ⟨1, .flag, 0⟩ := rfl
  have hlc : (buildIndex
      [.flag ⟨["a"], "a", false, none, none⟩,
       .flag ⟨["b"], "b", false, none, none⟩,
       .option ⟨["c"], "c", ⟨conv⟩, ⟨val⟩, dflt, false, none⟩]).lookup "-c"
      = some ⟨2, .option, 0⟩ := rfl
  constructor
  · cases hconv : conv v with
    | error e =>
      simp [parse, parseLevel, go, goShort, storeOptionValue, hconv, hd1, hd2, hd3,
        hd4, hm1, hm2, hm3, hcl1, hcl2, hcl3, hcl4, hla, hlb, hlc, initLState]
    | ok jv =>
      simp [parse, parseLevel, go, goShort, storeOptionValue, hconv, hd1, hd2, hd3,
        hd4, hm1, hm2, hm3, hcl1, hcl2, hcl3, hcl4, hla, hlb, hlc, initLState,
        Config.set, Config.empty, postProcess, applyEnv, applyEnvGo, applyEnvFlag,
        applyEnvOption, applyDefaults, applyDefaultsArg, runValidators, Config.find]
  · simp [parse, parseLevel, go, goShort, hd5, hm1, hm2, hm3, hcl5, hlc, initLState]

-- -------------------------------------------------------------------------
-- C2: value-resolution precedence (CLI > environment > default)
-- -------------------------------------------------------------------------

/-- The `dest` key an argument resolves values into (verification
vocabulary for stating dest-disjointness). -/
def destOf : ArgSpec → String
  | .flag f => f.dest
  | .flagGroup g => g.dest
  | .option o => o.dest
  | .positional p => p.dest

theorem flagEnvFallback_split {env : EnvLookup} {f : FlagSpec} {c c' : Config}
    {i : Nat} {r : List (Nat × String)}
    (h : flagEnvFallback env f c i = .ok (c', r)) :
    (c' = c ∨ ∃ b, c' = c.set f.dest (.bool b)) ∧ ∀ p ∈ r, p.1 = i := by
  cases hfe : f.env with
  | none => simp only [flagEnvFallback, hfe] at h; cases h; exact ⟨Or.inl rfl, by simp⟩
  | some es =>
    simp only [flagEnvFallback, hfe] at h
    cases hev : env es.var with
    | none => simp only [hev] at h; cases h; exact ⟨Or.inl rfl, by simp⟩
    | some s =>
      simp only [hev] at h
      by_cases h1 : String.map Char.toLower s = "true" ∨ String.map Char.toLower s = "1"
      · rw [if_pos h1] at h
        cases h
        exact ⟨Or.inr ⟨true, rfl⟩, by simp⟩
      · rw [if_neg h1] at h
        by_cases h2 : String.map Char.toLower s = "false" ∨ String.map Char.toLower s = "0"
        · rw [if_pos h2] at h
          cases h
          exact ⟨Or.inr ⟨false, rfl⟩, by simp⟩
        · rw [if_neg h2] at h
          cases h

theorem applyEnvFlag_find_ne {env : EnvLookup} {f : FlagSpec} {c c' : Config}
    {i : Nat} {r : List (Nat × String)} {k : String}
    (h : applyEnvFlag env f c i = .ok (c', r)) (hne : f.dest ≠ k) :
    c'.find k = c.find k := by
  unfold applyEnvFlag at h
  have hcase : flagEnvFallback env f c i = .ok (c', r) ∨ (c' = c ∧ r = []) := by
    split at h
    · split at h
      · exact Or.inl h
      · cases h; exact Or.inr ⟨rfl, rfl⟩
    · exact Or.inl h
  rcases hcase with hf | ⟨rfl, rfl⟩
  · rcases (flagEnvFallback_split hf).1 with rfl | ⟨b, rfl⟩
    · rfl
    · exact Config.find_set_ne _ _ hne
  · rfl

theorem applyEnvOption_find_ne {env : EnvLookup} {o : OptionSpec} {c c' : Config}
    {i : Nat} {r : List (Nat × String)} {k : String}
    (h : applyEnvOption env o c i = .ok (c', r)) (hne : o.dest ≠ k) :
    c'.find k = c.find k := by
  unfold applyEnvOption at h
  repeat' split at h
  all_goals cases h
  all_goals first
  | rfl
  | (exact Config.find_set_ne _ _ hne)

theorem applyEnvFlag_reads {env : EnvLookup} {f : FlagSpec} {c c' : Config}
    {i : Nat} {r : List (Nat × String)}
    (h : applyEnvFlag env f c i = .ok (c', r)) :
    ∀ p ∈ r, p.1 = i := by
  unfold applyEnvFlag at h
  have hcase : flagEnvFallback env f c i = .ok (c', r) ∨ (c' = c ∧ r = []) := by
    split at h
    · split at h
      · exact Or.inl h
      · cases h; exact Or.inr ⟨rfl, rfl⟩
    · exact Or.inl h
  rcases hcase with hf | ⟨rfl, rfl⟩
  · exact (flagEnvFallback_split hf).2
  · simp

theorem applyEnvOption_reads {env : EnvLookup} {o : OptionSpec} {c c' : Config}
    {i : Nat} {r : List (Nat × String)}
    (h : applyEnvOption env o c i = .ok (c', r)) :
    ∀ p ∈ r, p.1 = i := by
  unfold applyEnvOption at h
  repeat' split at h
  all_goals cases h
  all_goals simp

theorem applyEnvGo_reads_ge {env : EnvLookup} :
    ∀ (args : List ArgSpec) (c : Config) (j : Nat) (c' : Config)
      (rds : List (Nat × String)),
      applyEnvGo env args c j = .ok (c', rds) → ∀ p ∈ rds, j ≤ p.1 := by
  intro args
  induction args with
  | nil =>
    intro c j c' rds h p hp
    simp only [applyEnvGo] at h
    cases h
    cases hp
  | cons a args ih =>
    intro c j c' rds h p hp
    simp only [applyEnvGo] at h
    split at h
    · cases h
    · split at h
      · cases h
      · rename_i x1 c1 r1 hstep x2 c2 r2 hrec
        cases h
        rcases List.mem_append.mp hp with hp1 | hp2
        · cases a with
          | flag f => exact (applyEnvFlag_reads hstep p hp1).ge
          | option o => exact (applyEnvOption_reads hstep p hp1).ge
          | flagGroup g => cases hstep; cases hp1
          | positional q => cases hstep; cases hp1
        · exact Nat.le_of_succ_le (ih c1 (j + 1) _ _ hrec p hp2)

theorem applyEnvGo_find_ne {env : EnvLookup} {k : String} :
    ∀ (args : List ArgSpec) (c : Config) (j : Nat) (c' : Config)
      (rds : List (Nat × String)),
      (∀ a ∈ args, destOf a ≠ k) →
      applyEnvGo env args c j = .ok (c', rds) →
      c'.find k = c.find k := by
  intro args
  induction args with
  | nil =>
    intro c j c' rds _ h
    simp only [applyEnvGo] at h
    cases h
    rfl
  | cons a args ih =>
    intro c j c' rds hne h
    simp only [applyEnvGo] at h
    split at h
    · cases h
    · split at h
      · cases h
      · rename_i x1 c1 r1 hstep x2 c2 r2 hrec
        cases h
        have hmid : c1.find k = c.find k := by
          cases a with
          | flag f =>
            exact applyEnvFlag_find_ne hstep (hne _ (List.mem_cons_self _ _))
          | option o =>
            exact applyEnvOption_find_ne hstep (hne _ (List.mem_cons_self _ _))
          | flagGroup g => cases hstep; rfl
          | positional q => cases hstep; rfl
        rw [← hmid]
        exact ih c1 (j + 1) _ _ (fun b hb => hne b (List.mem_cons_of_mem _ hb)) hrec

theorem applyDefaultsArg_preserve {c : Config} {k : String} {v : JValue}
    (a : ArgSpec) (h : c.find k = some v) :
    (applyDefaultsArg c a).find k = some v := by
  have hwr : ∀ (d : String) (w : JValue), d ≠ k → (c.set d w).find k = some v := by
    intro d w hne
    rw [Config.find_set_ne _ _ hne, h]
  cases a with
  | flag f =>
    simp only [applyDefaultsArg]
    by_cases hd : f.dest = k
    · subst hd; simp [h]
    · split
      · exact h
      · exact hwr _ _ hd
  | option o =>
    simp only [applyDefaultsArg]
    split
    · rename_i heq1 heq2
      by_cases hd : o.dest = k
      · subst hd; rw [heq1] at h; cases h
      · exact hwr _ _ hd
    · exact h
  | positional p =>
    simp only [applyDefaultsArg]
    split
    · rename_i heq1 heq2
      by_cases hd : p.dest = k
      · subst hd; rw [heq1] at h; cases h
      · exact hwr _ _ hd
    · exact h
  | flagGroup g =>
    simp only [applyDefaultsArg]
    by_cases hd : g.dest = k
    · subst hd; simp [h]
    · split
      · exact h
      · exact hwr _ _ hd

theorem applyDefaults_preserve {k : String} {v : JValue} :
    ∀ (args : List ArgSpec) (c : Config), c.find k = some v →
      (applyDefaults c args).find k = some v := by
  intro args
  induction args with
  | nil => intro c h; exact h
  | cons a args ih =>
    intro c h
    exact ih _ (applyDefaultsArg_preserve a h)

theorem applyDefaultsArg_find_ne {c : Config} {k : String} (a : ArgSpec)
    (hne : destOf a ≠ k) :
    (applyDefaultsArg c a).find k = c.find k := by
  cases a <;> simp only [applyDefaultsArg] <;> unfold destOf at hne <;> repeat' split
  all_goals first
  | rfl
  | (exact Config.find_set_ne _ _ hne)

/-- The per-argument step of `detail::apply_env` (the body of its
argument loop). -/
def stepEnv (env : EnvLookup) (a : ArgSpec) (c : Config) (i : Nat) :
    Except Exc (Config × List (Nat × String)) :=
  match a with
  | .flag f => applyEnvFlag env f c i
  | .option o => applyEnvOption env o c i
  | _ => .ok (c, [])

theorem stepEnv_find_ne {env : EnvLookup} {a : ArgSpec} {c c' : Config}
    {i : Nat} {r : List (Nat × String)} {k : String}
    (h : stepEnv env a c i = .ok (c', r)) (hne : destOf a ≠ k) :
    c'.find k = c.find k := by
  cases a with
  | flag f => exact applyEnvFlag_find_ne h hne
  | option o => exact applyEnvOption_find_ne h hne
  | flagGroup g => cases h; rfl
  | positional p => cases h; rfl

theorem stepEnv_reads {env : EnvLookup} {a : ArgSpec} {c c' : Config}
    {i : Nat} {r : List (Nat × String)}
    (h : stepEnv env a c i = .ok (c', r)) :
    ∀ p ∈ r, p.1 = i := by
  cases a with
  | flag f => exact applyEnvFlag_reads h
  | option o => exact applyEnvOption_reads h
  | flagGroup g => cases h; simp
  | positional p => cases h; simp

/-- Localizing `apply_env` at the argument at position `i` of a level
whose `dest` keys are pairwise distinct: the target argument is processed
exactly once, on a config whose value at its `dest` is the original one;
no other argument touches that `dest`; and the reads tagged with the
target's position are exactly the target's own reads. -/
theorem applyEnvGo_at_target {env : EnvLookup} :
    ∀ (args : List ArgSpec) (i : Nat) (a : ArgSpec),
      args.get? i = some a →
      (args.map destOf).Nodup →
      ∀ (c : Config) (j : Nat) (c' : Config) (rds : List (Nat × String)),
        applyEnvGo env args c j = .ok (c', rds) →
        ∃ (cmid cnext : Config) (r1 : List (Nat × String)),
          stepEnv env a cmid (j + i) = .ok (cnext, r1) ∧
          cmid.find (destOf a) = c.find (destOf a) ∧
          c'.find (destOf a) = cnext.find (destOf a) ∧
          (∀ s, (j + i, s) ∈ rds ↔ (j + i, s) ∈ r1) := by
  intro args
  induction args with
  | nil =>
    intro i a hget
    simp at hget
  | cons a0 args ih =>
    intro i a hget hnd c j c' rds h
    have hnd' : (∀ x ∈ args, destOf x ≠ destOf a0) ∧ (args.map destOf).Nodup := by
      simpa using hnd
    simp only [applyEnvGo] at h
    split at h
    · cases h
    · split at h
      · cases h
      · rename_i x1 c1 r1 hstep x2 c2 r2 hrec
        cases h
        cases i with
        | zero =>
          rw [List.get?_cons_zero] at hget
          injection hget with hget
          subst hget
          have htail : ∀ b ∈ args, destOf b ≠ destOf a0 := hnd'.1
          refine ⟨c, c1, r1, ?_, rfl, ?_, ?_⟩
          · simpa [stepEnv, Nat.add_zero] using hstep
          · exact applyEnvGo_find_ne args c1 (j + 1) _ _ htail hrec
          · intro s
            rw [Nat.add_zero]
            constructor
            · intro hm
              rcases List.mem_append.mp hm with h1 | h2
              · exact h1
              · have := applyEnvGo_reads_ge args c1 (j + 1) _ _ hrec _ h2
                omega
            · intro hm
              exact List.mem_append.mpr (Or.inl hm)
        | succ i' =>
          rw [List.get?_cons_succ] at hget
          have hmem : a ∈ args := List.get?_mem hget
          have hne0 : destOf a0 ≠ destOf a := fun he => hnd'.1 a hmem he.symm
          obtain ⟨cmid, cnext, rt, hstep', hmid, hfin, hreads⟩ :=
            ih i' a hget hnd'.2 c1 (j + 1) _ _ hrec
          refine ⟨cmid, cnext, rt, ?_, ?_, hfin, ?_⟩
          · have : j + 1 + i' = j + (i' + 1) := by omega
            rw [← this]
            exact hstep'
          · rw [hmid]
            exact stepEnv_find_ne (by simpa [stepEnv] using hstep) hne0
          · intro s
            have harith : j + (i' + 1) = j + 1 + i' := by omega
            constructor
            · intro hm
              rcases List.mem_append.mp hm with h1 | h2
              · have := stepEnv_reads (a := a0) (by simpa [stepEnv] using hstep) _ h1
                simp at this
              · rw [harith]
                exact (hreads s).mp (harith ▸ h2)
            · intro hm
              refine List.mem_append.mpr (Or.inr ?_)
              have := (hreads s).mpr (harith ▸ hm)
              exact harith ▸ this

theorem applyEnvOption_present {env : EnvLookup} {o : OptionSpec} {c : Config}
    {i : Nat} {v : JValue} (h : c.find o.dest = some v) :
    applyEnvOption env o c i = .ok (c, []) := by
  simp only [applyEnvOption, h]

theorem applyEnvFlag_present {env : EnvLookup} {f : FlagSpec} {c : Config}
    {i : Nat} {v : JValue} (h : c.find f.dest = some v) (hv : v ≠ .bool false) :
    applyEnvFlag env f c i = .ok (c, []) := by
  simp only [applyEnvFlag, h]
  rw [if_neg hv]

theorem applyEnvOption_env_write {env : EnvLookup} {o : OptionSpec} {c : Config}
    {i : Nat} {es : EnvSpec} {s : String} {v : JValue}
    (hfind : c.find o.dest = none) (hes : o.env = some es)
    (hvar : env es.var = some s) (hconv : o.converter.parse s = .ok v) :
    applyEnvOption env o c i = .ok (c.set o.dest v, [(i, es.var)]) := by
  simp only [applyEnvOption, hfind, hes, hvar, hconv]

theorem applyEnvOption_env_absent {env : EnvLookup} {o : OptionSpec} {c : Config}
    {i : Nat} (hfind : c.find o.dest = none)
    (habs : o.env = none ∨ ∃ es, o.env = some es ∧ env es.var = none) :
    ∃ r, applyEnvOption env o c i = .ok (c, r) := by
  rcases habs with h0 | ⟨es, hes, hvar⟩
  · exact ⟨[], by simp only [applyEnvOption, hfind, h0]⟩
  · exact ⟨[(i, es.var)], by simp only [applyEnvOption, hfind, hes, hvar]⟩

theorem applyDefaults_option_default :
    ∀ (args : List ArgSpec) (i : Nat) (o : OptionSpec) (c : Config) (d : JValue),
      args.get? i = some (.option o) →
      (args.map destOf).Nodup →
      c.find o.dest = none →
      o.default_value = some d →
      (applyDefaults c args).find o.dest = some d := by
  intro args
  induction args with
  | nil =>
    intro i o c d hget
    simp at hget
  | cons a0 args ih =>
    intro i o c d hget hnd hfind hdef
    have hnd' : (∀ x ∈ args, destOf x ≠ destOf a0) ∧ (args.map destOf).Nodup := by
      simpa using hnd
    simp only [applyDefaults]
    cases i with
    | zero =>
      rw [List.get?_cons_zero] at hget
      injection hget with hget
      subst hget
      have harg : applyDefaultsArg c (.option o) = c.set o.dest d := by
        simp only [applyDefaultsArg, hfind, hdef]
      rw [harg]
      exact applyDefaults_preserve args _ (Config.find_set_self _ _ _)
    | succ i' =>
      rw [List.get?_cons_succ] at hget
      have hmem : ArgSpec.option o ∈ args := List.get?_mem hget
      have hne0 : destOf a0 ≠ o.dest := fun he => hnd'.1 _ hmem he.symm
      have hfind' : (applyDefaultsArg c a0).find o.dest = none := by
        rw [applyDefaultsArg_find_ne a0 hne0, hfind]
      exact ih i' o _ d hget hnd'.2 hfind' hdef

/-- C2, amended: the CLI > environment > default precedence law, per
argument, for a level whose arguments resolve to pairwise-distinct `dest`
keys.  With the argument at position `i`: (1) an Option whose value is
present in the parsed config never has its environment variable read and
keeps its value through defaulting; (2) likewise a Flag whose present
value is not `false`; (3) an Option absent from the config whose bound
environment variable is set and converts successfully resolves to the
converted environment value — the default is never applied; (4) an Option
absent from the config with its environment unbound or unset receives its
declared default. -/
theorem C2_precedence (args : List ArgSpec) (c : Config) (env : EnvLookup)
    (hnd : (args.map destOf).Nodup) (i : Nat) :
    (∀ o v, args.get? i = some (.option o) → c.find o.dest = some v →
      ∀ c' rds, applyEnv c args env = .ok (c', rds) →
        (∀ s, (i, s) ∉ rds) ∧ (applyDefaults c' args).find o.dest = some v) ∧
    (∀ f v, args.get? i = some (.flag f) → c.find f.dest = some v →
      v ≠ .bool false →
      ∀ c' rds, applyEnv c args env = .ok (c', rds) →
        (∀ s, (i, s) ∉ rds) ∧ (applyDefaults c' args).find f.dest = some v) ∧
    (∀ o es s v, args.get? i = some (.option o) → c.find o.dest = none →
      o.env = some es → env es.var = some s → o.converter.parse s = .ok v →
      ∀ c' rds, applyEnv c args env = .ok (c', rds) →
        (applyDefaults c' args).find o.dest = some v) ∧
    (∀ o d, args.get? i = some (.option o) → c.find o.dest = none →
      (o.env = none ∨ ∃ es, o.env = some es ∧ env es.var = none) →
      o.default_value = some d →
      ∀ c' rds, applyEnv c args env = .ok (c', rds) →
        (applyDefaults c' args).find o.dest = some d) := by
  refine ⟨?_, ?_, ?_, ?_⟩
  · intro o v hget hfind c' rds happ
    obtain ⟨cmid, cnext, r1, hstep, hmid, hfin, hreads⟩ :=
      applyEnvGo_at_target args i (.option o) hget hnd c 0 c' rds happ
    rw [Nat.zero_add] at hstep hreads
    have hmid' : cmid.find o.dest = some v := by
      rw [show cmid.find o.dest = c.find o.dest from hmid, hfind]
    have hskip : stepEnv env (.option o) cmid i = .ok (cmid, []) :=
      applyEnvOption_present hmid'
    rw [hskip] at hstep
    injection hstep with hstep
    injection hstep with h1 h2
    constructor
    · intro s hs
      have := (hreads s).mp hs
      rw [← h2] at this
      cases this
    · have hc' : c'.find o.dest = some v := by
        rw [show c'.find o.dest = cnext.find o.dest from hfin, ← h1, hmid']
      exact applyDefaults_preserve args c' hc'
  · intro f v hget hfind hv c' rds happ
    obtain ⟨cmid, cnext, r1, hstep, hmid, hfin, hreads⟩ :=
      applyEnvGo_at_target args i (.flag f) hget hnd c 0 c' rds happ
    rw [Nat.zero_add] at hstep hreads
    have hmid' : cmid.find f.dest = some v := by
      rw [show cmid.find f.dest = c.find f.dest from hmid, hfind]
    have hskip : stepEnv env (.flag f) cmid i = .ok (cmid, []) :=
      applyEnvFlag_present hmid' hv
    rw [hskip] at hstep
    injection hstep with hstep
    injection hstep with h1 h2
    constructor
    · intro s hs
      have := (hreads s).mp hs
      rw [← h2] at this
      cases this
    · have hc' : c'.find f.dest = some v := by
        rw [show c'.find f.dest = cnext.find f.dest from hfin, ← h1, hmid']
      exact applyDefaults_preserve args c' hc'
  · intro o es s v hget hfind hes hvar hconv c' rds happ
    obtain ⟨cmid, cnext, r1, hstep, hmid, hfin, hreads⟩ :=
      applyEnvGo_at_target args i (.option o) hget hnd c 0 c' rds happ
    rw [Nat.zero_add] at hstep
    have hmid' : cmid.find o.dest = none := by
      rw [show cmid.find o.dest = c.find o.dest from hmid, hfind]
    have hwrite : stepEnv env (.option o) cmid i
        = .ok (cmid.set o.dest v, [(i, es.var)]) :=
      applyEnvOption_env_write hmid' hes hvar hconv
    rw [hwrite] at hstep
    injection hstep with hstep
    injection hstep with h1 h2
    have hc' : c'.find o.dest = some v := by
      rw [show c'.find o.dest = cnext.find o.dest from hfin, ← h1,
        Config.find_set_self]
    exact applyDefaults_preserve args c' hc'
  · intro o d hget hfind habs hdef c' rds happ
    obtain ⟨cmid, cnext, r1, hstep, hmid, hfin, hreads⟩ :=
      applyEnvGo_at_target args i (.option o) hget hnd c 0 c' rds happ
    rw [Nat.zero_add] at hstep
    have hmid' : cmid.find o.dest = none := by
      rw [show cmid.find o.dest = c.find o.dest from hmid, hfind]
    obtain ⟨r, habsent⟩ := @applyEnvOption_env_absent env o cmid i hmid' habs
    rw [show stepEnv env (.option o) cmid i = applyEnvOption env o cmid i from rfl,
      habsent] at hstep
    injection hstep with hstep
    injection hstep with h1 h2
    have hc' : c'.find o.dest = none := by
      rw [show c'.find o.dest = cnext.find o.dest from hfin, ← h1, hmid']
    exact applyDefaults_option_default args i o c' d hget hnd hc' hdef

/-- C2, counterexample: with two arguments sharing the dest `x` — a flag
and an option with declared default `"d"` — the option's CLI value and
environment are both absent on `parse ... [] noEnv`, yet the final value
under `x` is the flag's default `false`, not the option's declared
default: "if both are absent, the declared default is applied" fails for
specs with colliding dests. -/
theorem C2_counterexample :
    parse ⟨"prog",
        [.flag ⟨["f"], "x", false, none, none⟩,
         .option ⟨["o"], "x", ⟨fun s => .ok (.str s)⟩, ⟨fun _ _ => .ok ()⟩,
            some (.str "d"), false, none⟩], [], none⟩ [] noEnv
      = .ok (.ok ⟨[("x", .bool false)], []⟩) ∧
    (JValue.bool false ≠ .str "d") := by
  constructor <;> decide

/-- C2, witness: clause (4) of the amended precedence law applied at a
concrete one-option level — CLI and environment both absent, so the
declared default lands in the config. -/
theorem C2_witness :
    (applyDefaults ([] : Config)
        [.option ⟨["o"], "x", ⟨fun s => .ok (.str s)⟩, ⟨fun _ _ => .ok ()⟩,
            some (.str "d"), false, none⟩]).find "x"
      = some (.str "d") :=
  (C2_precedence
      [.option ⟨["o"], "x", ⟨fun s => .ok (.str s)⟩, ⟨fun _ _ => .ok ()⟩,
          some (.str "d"), false, none⟩]
      [] noEnv (by simp [destOf]) 0).2.2.2
    ⟨["o"], "x", ⟨fun s => .ok (.str s)⟩, ⟨fun _ _ => .ok ()⟩,
        some (.str "d"), false, none⟩
    (.str "d") rfl rfl (Or.inl rfl) rfl [] [] rfl

end JsonCommander
